import Mathlib

/-!
# Verification of the VisioCampus signaling server's room/participant state machine

Shallow embedding of `src/server.js`: the in-memory room/participant registry
(`rooms`, `participants` maps), the mode-arbitration function
`determineOptimalMode`, the `join-room` handler, the shared teardown
`handleParticipantLeaving`, the `media-state-change` handler, and the periodic
reaper sweep.  JavaScript `Map`s are embedded as association lists with unique
keys, `Set`s of socket ids as duplicate-free lists, and the outbound HTTP calls
(health probes, SFU token fetch) as explicit boolean/optional inputs to the
handlers.
-/

set_option maxHeartbeats 1000000
set_option linter.unusedVariables false

namespace VisioCampus

/-- Transport topology of a room: direct mesh (`'p2p'`) or forwarding unit (`'sfu'`). -/
inductive Mode where
  | p2p
  | sfu
  deriving DecidableEq, Repr

/-- Per-participant media flags (`mediaState` in the source, `{audio, video}`). -/
structure MediaState where
  audio : Bool
  video : Bool
  deriving DecidableEq, Repr

/-- Participant record stored in the `participants` map (src/server.js line 317). -/
structure Participant where
  socketId : String
  userId : String
  userName : String
  userRole : String
  roomId : String
  joinedAt : Nat
  mediaState : MediaState
  deriving DecidableEq, Repr

/-- Room record stored in the `rooms` map (src/server.js line 329).
`participantsSet` embeds the JS `Set` of socket ids as a duplicate-free list. -/
structure Room where
  roomId : String
  participantsSet : List String
  mode : Mode
  createdAt : Nat
  deriving DecidableEq, Repr

/-- The server's whole in-memory registry: the `rooms` and `participants` maps
(src/server.js lines 41-42), embedded as association lists. -/
structure ServerState where
  rooms : List (String × Room)
  participants : List (String × Participant)
  deriving DecidableEq, Repr

/-- The empty registry at server start. -/
def initialState : ServerState := { rooms := [], participants := [] }

/-! ## Association-list operations embedding JS `Map.get` / `Map.set` / `Map.delete` -/

/-- Embedding of `Map.get`: first value stored under key `k`. -/
def alookup {α : Type} (k : String) : List (String × α) → Option α
  | [] => none
  | (k2, v) :: rest => if k2 = k then some v else alookup k rest

/-- Embedding of `Map.set`: replace the entry under `k` or append a fresh one. -/
def aset {α : Type} (k : String) (v : α) : List (String × α) → List (String × α)
  | [] => [(k, v)]
  | (k2, v2) :: rest => if k2 = k then (k, v) :: rest else (k2, v2) :: aset k v rest

/-- Embedding of `Map.delete`: remove the entry under `k`. -/
def aerase {α : Type} (k : String) : List (String × α) → List (String × α)
  | [] => []
  | (k2, v2) :: rest => if k2 = k then rest else (k2, v2) :: aerase k rest

/-- The keys of an association list. -/
def keys {α : Type} (l : List (String × α)) : List String := l.map Prod.fst

/-- Embedding of `Set.add`: insert a socket id unless already present (JS sets ignore duplicates). -/
def insertMember (x : String) (l : List String) : List String :=
  if x ∈ l then l else l ++ [x]

/-! ## Mode arbitration (`determineOptimalMode`, src/server.js lines 98-139)

The outbound health probes `checkSFUHealth` / `checkP2PHealth` are embedded as
the boolean inputs `sfuAvailable` / `p2pAvailable` (the probes convert every
failure to `false` and never throw). -/

/-- The source function `determineOptimalMode` (src/server.js lines 98-139), with the two health-probe
results as explicit inputs.  Note the source function does not receive the
room's current mode at all. -/
def determineOptimalMode (sfuAvailable p2pAvailable : Bool) (participantCount : Nat) : Mode :=
  if !sfuAvailable && !p2pAvailable then Mode.p2p
  else if !sfuAvailable then Mode.p2p
  else if !p2pAvailable then Mode.sfu
  else if participantCount ≥ 10 then Mode.sfu
  else Mode.p2p

/-- The spec's `decide(currentMode, memberCount, sfuUp, meshUp)` interface for the
mode arbiter.  The source function `determineOptimalMode` ignores the current
mode (it is not even a parameter), so this wrapper discards `currentMode`. -/
def decideMode (currentMode : Mode) (memberCount : Nat) (sfuUp meshUp : Bool) : Mode :=
  determineOptimalMode sfuUp meshUp memberCount

/-- Downward mode rule applied by the teardown handler (src/server.js lines
640-650): after a removal, switch `sfu → p2p` when the post-removal count drops
below 10; no health probe is consulted there. -/
def leaveModeRule (mode : Mode) (participantCount : Nat) : Mode :=
  if participantCount < 10 ∧ mode = Mode.sfu then Mode.p2p else mode

/-! ## Outbound events

One constructor per `emit` in the handlers under verification.  `errorEvt` and
`roomJoined` are unicast to one socket; the others are room-scoped broadcasts
(`userJoined`, `userLeft`, `participantMediaState` exclude the sender,
`modeSwitched` includes it). -/

inductive Event where
  | errorEvt (toSocket : String) (event : String)
  | roomJoined (toSocket : String) (roomId : String) (participants : List Participant)
      (mode : Mode) (sfuToken : Option String) (participantsCount : Nat)
  | userJoined (roomId : String) (socketId : String) (participantsCount : Nat) (mode : Mode)
  | modeSwitched (roomId : String) (mode : Mode) (participantsCount : Nat) (reason : String)
  | userLeft (roomId : String) (socketId : String) (participantsCount : Nat)
  | participantMediaState (roomId : String) (socketId : String) (mediaState : MediaState)
  deriving DecidableEq, Repr

/-- JS falsiness of an optional string payload field: absent or empty. -/
def isMissing : Option String → Bool
  | none => true
  | some s => s = ""

/-- Result of the `join-room` handler: the post-handler registry, the emitted
events, and whether the handler issued an SFU token request. -/
structure JoinResult where
  state : ServerState
  events : List Event
  tokenRequested : Bool
  deriving Repr

/-! ## The `join-room` handler (src/server.js lines 299-426)

External inputs made explicit: `now` (`Date.now()`), `sfuUp`/`p2pUp` (the two
health probes inside `determineOptimalMode`), and `tokenResult` (the SFU
`/tokens` fetch: `some tok` for a 2xx response, `none` for a non-2xx response
or a transport error — both leave `sfuToken = null` in the source). -/

/-- The participant record stored by a successful join (src/server.js lines
317-325): media state starts `{audio: true, video: true}`, role defaults to
`'participant'`. -/
def joinParticipantRecord (userId userName userRole : Option String) (rid sockId : String)
    (now : Nat) : Participant :=
  { socketId := sockId
    userId := userId.getD ""
    userName := userName.getD ""
    userRole := userRole.getD "participant"
    roomId := rid
    joinedAt := now
    mediaState := { audio := true, video := true } }

/-- The room record as it stands after a successful join to `rid`: the room is
created fresh if absent (lines 328-336), the socket id added to its member set
(line 339), and the mode set to `determineOptimalMode`'s output at the
post-insertion count (lines 341-350; when the output equals the previous mode
the source leaves it untouched, which coincides with storing the output). -/
def joinRoomRecord (s : ServerState) (rid sockId : String) (now : Nat)
    (sfuUp p2pUp : Bool) : Room :=
  let room0 : Room :=
    (alookup rid s.rooms).getD
      { roomId := rid, participantsSet := [], mode := Mode.p2p, createdAt := now }
  let members1 := insertMember sockId room0.participantsSet
  { room0 with participantsSet := members1
               mode := determineOptimalMode sfuUp p2pUp members1.length }

/-- The `join-room` handler.  Validation first (lines 303-309); then the
participant record is stored, the room is created if absent and the socket id
added to its member set, the mode re-arbitrated at the post-insertion count and
stored, a token fetched iff the resolved mode is `sfu`, and the confirmation /
broadcast events assembled. -/
def joinRoom (s : ServerState) (roomId userId userName userRole : Option String)
    (sockId : String) (now : Nat) (sfuUp p2pUp : Bool) (tokenResult : Option String) :
    JoinResult :=
  if isMissing roomId || isMissing userId || isMissing userName then
    { state := s, events := [Event.errorEvt sockId "join-room"], tokenRequested := false }
  else
    let rid := roomId.getD ""
    let p : Participant := joinParticipantRecord userId userName userRole rid sockId now
    let participants1 := aset sockId p s.participants
    let room0 : Room :=
      (alookup rid s.rooms).getD
        { roomId := rid, participantsSet := [], mode := Mode.p2p, createdAt := now }
    let room1 : Room := joinRoomRecord s rid sockId now sfuUp p2pUp
    let participantCount := room1.participantsSet.length
    let optimalMode := room1.mode
    let modeChanged : Bool := optimalMode ≠ room0.mode
    let rooms1 := aset rid room1 s.rooms
    let existing :=
      (room1.participantsSet.filter (fun i => i ≠ sockId)).filterMap
        (fun i => alookup i participants1)
    let tokenRequested : Bool := optimalMode = Mode.sfu
    let sfuToken : Option String := if optimalMode = Mode.sfu then tokenResult else none
    { state := { rooms := rooms1, participants := participants1 }
      events :=
        [Event.roomJoined sockId rid existing optimalMode sfuToken participantCount,
         Event.userJoined rid sockId participantCount optimalMode] ++
        (if modeChanged then
          [Event.modeSwitched rid optimalMode participantCount
            (if participantCount ≥ 10 then "trop de participants" else "changement optimal")]
         else [])
      tokenRequested := tokenRequested }

/-- The shared teardown `handleParticipantLeaving` (src/server.js lines 615-663),
reached from both `leave-room` and `disconnect`.  Unknown socket ids fall
through to a no-op; otherwise the participant is removed from its room's member
set and the reverse map, `user-left` is broadcast, the downward mode rule
applied, and the room deleted if now empty. -/
def handleParticipantLeaving (s : ServerState) (sockId : String) :
    ServerState × List Event :=
  match alookup sockId s.participants with
  | none => (s, [])
  | some participant =>
    match alookup participant.roomId s.rooms with
    | none => ({ s with participants := aerase sockId s.participants }, [])
    | some room =>
      let members1 := room.participantsSet.erase sockId
      let participantCount := members1.length
      let modeEvts :=
        if participantCount < 10 ∧ room.mode = Mode.sfu then
          [Event.modeSwitched participant.roomId Mode.p2p participantCount "peu de participants"]
        else []
      let room1 : Room :=
        { room with participantsSet := members1
                    mode := leaveModeRule room.mode participantCount }
      let rooms1 :=
        if members1.length = 0 then aerase participant.roomId s.rooms
        else aset participant.roomId room1 s.rooms
      ({ rooms := rooms1, participants := aerase sockId s.participants },
       Event.userLeft participant.roomId sockId participantCount :: modeEvts)

/-- The `media-state-change` handler (src/server.js lines 482-499): known
senders get their stored `mediaState` overwritten (last-write-wins) and a
broadcast to the rest of their room; unknown senders are ignored. -/
def mediaStateChange (s : ServerState) (sockId : String) (data : MediaState) :
    ServerState × List Event :=
  match alookup sockId s.participants with
  | none => (s, [])
  | some p =>
    ({ s with participants := aset sockId { p with mediaState := data } s.participants },
     [Event.participantMediaState p.roomId sockId data])

/-- The reaper's inactivity threshold, `MAX_INACTIVE_TIME = 30 * 60 * 1000` ms
(src/server.js line 671). -/
def MAX_INACTIVE_TIME : Nat := 30 * 60 * 1000

/-- Pass 1 of the reaper sweep: keep every room that is non-empty or not yet
older than `MAX_INACTIVE_TIME` (src/server.js lines 674-679). -/
def roomsAfterReap (s : ServerState) (now : Nat) : List (String × Room) :=
  s.rooms.filter (fun e =>
    !(decide (e.2.participantsSet.length = 0) &&
      decide (now - e.2.createdAt > MAX_INACTIVE_TIME)))

/-- One periodic reaper sweep (src/server.js lines 666-692).  Pass 1 deletes
rooms that are empty and older than `MAX_INACTIVE_TIME`; pass 2 deletes
participants whose stored `roomId` has no room left after pass 1. -/
def reaperSweep (s : ServerState) (now : Nat) : ServerState :=
  { rooms := roomsAfterReap s now
    participants :=
      s.participants.filter (fun e => (alookup e.2.roomId (roomsAfterReap s now)).isSome) }

/-! ## Reachable registry states

The states the registry can be in between completed operations, starting from
the empty registry.  Per the spec's scope, a join is only taken for a socket id
that is not currently a participant (the unguarded join-while-joined case is
out of scope). -/

inductive Reachable : ServerState → Prop where
  | init : Reachable initialState
  | joinStep : ∀ s roomId userId userName userRole sockId now sfuUp p2pUp tokenResult,
      Reachable s → alookup sockId s.participants = none →
      Reachable (joinRoom s roomId userId userName userRole sockId now sfuUp p2pUp
        tokenResult).state
  | leaveStep : ∀ s sockId, Reachable s → Reachable (handleParticipantLeaving s sockId).1
  | mediaStep : ∀ s sockId data, Reachable s → Reachable (mediaStateChange s sockId data).1
  | reapStep : ∀ s now, Reachable s → Reachable (reaperSweep s now)

/-- The registry-consistency invariant maintained between completed operations:
both maps have unique keys, every participant record points to a registered
room whose member set contains it, every member-set entry has a participant
record pointing back to that room, member sets are duplicate-free, and no
registered room is empty. -/
structure Inv (s : ServerState) : Prop where
  roomsNodup : (keys s.rooms).Nodup
  partsNodup : (keys s.participants).Nodup
  partHasRoom : ∀ sid p, alookup sid s.participants = some p →
    ∃ room, alookup p.roomId s.rooms = some room ∧ sid ∈ room.participantsSet
  memberHasPart : ∀ rid room sid, alookup rid s.rooms = some room →
    sid ∈ room.participantsSet →
    ∃ p, alookup sid s.participants = some p ∧ p.roomId = rid
  membersNodup : ∀ rid room, alookup rid s.rooms = some room → room.participantsSet.Nodup
  roomNonempty : ∀ rid room, alookup rid s.rooms = some room → room.participantsSet ≠ []

/-! ## Concrete demonstration states (used by witnesses and counterexamples) -/

/-- One valid join into a fresh registry (both services up). -/
def demoState1 : ServerState :=
  (joinRoom initialState (some "r") (some "u1") (some "Alice") none "sock1" 0 true true
    none).state

/-- First join of the scenario with the mesh service down: "sock1" joins "r"
while `sfuUp = true`, `p2pUp = false`, so the room resolves to `sfu` mode. -/
def meshDown1 : ServerState :=
  (joinRoom initialState (some "r") (some "u1") (some "Alice") none "sock1" 0 true false
    none).state

/-- Second join of the mesh-down scenario: "sock2" joins "r"; the room stays in
`sfu` mode with two members. -/
def meshDown2 : ServerState :=
  (joinRoom meshDown1 (some "r") (some "u2") (some "Bob") none "sock2" 0 true false
    none).state

/-- The mesh-down scenario after "sock1" leaves: one member remains. -/
def meshDown3 : ServerState := (handleParticipantLeaving meshDown2 "sock1").1

/-! ## Lemmas about the association-list operations -/

theorem alookup_aset_self {α : Type} (k : String) (v : α) (l : List (String × α)) :
    alookup k (aset k v l) = some v := by
  induction l with
  | nil => simp [aset, alookup]
  | cons hd tl ih =>
    rcases hd with ⟨k2, v2⟩
    by_cases h : k2 = k
    · simp [aset, alookup, h]
    · simp [aset, alookup, h, ih]

theorem keys_nil {α : Type} : keys ([] : List (String × α)) = [] := rfl

theorem keys_cons {α : Type} (k : String) (v : α) (l : List (String × α)) :
    keys ((k, v) :: l) = k :: keys l := rfl

theorem alookup_aset_ne {α : Type} {k k2 : String} (h : k2 ≠ k) (v : α)
    (l : List (String × α)) : alookup k (aset k2 v l) = alookup k l := by
  have h2 : ¬(k2 = k) := h
  induction l with
  | nil => simp [aset, alookup, h2]
  | cons hd tl ih =>
    rcases hd with ⟨k3, v3⟩
    by_cases h3 : k3 = k2
    · subst h3
      simp [aset, alookup, h2]
    · simp [aset, alookup, h3, ih]

theorem alookup_aerase_ne {α : Type} {k k2 : String} (h : k2 ≠ k)
    (l : List (String × α)) : alookup k (aerase k2 l) = alookup k l := by
  have h2 : ¬(k2 = k) := h
  induction l with
  | nil => simp [aerase]
  | cons hd tl ih =>
    rcases hd with ⟨k3, v3⟩
    by_cases h3 : k3 = k2
    · subst h3
      simp [aerase, alookup, h2]
    · simp [aerase, alookup, h3, ih]

theorem mem_keys_of_alookup_eq_some {α : Type} {k : String} {v : α}
    {l : List (String × α)} (h : alookup k l = some v) : k ∈ keys l := by
  induction l with
  | nil => simp [alookup] at h
  | cons hd tl ih =>
    rcases hd with ⟨k2, v2⟩
    rw [keys_cons]
    by_cases h2 : k2 = k
    · simp [h2]
    · simp only [alookup, h2, if_neg h2] at h
      exact List.mem_cons_of_mem _ (ih h)

theorem alookup_eq_none_of_not_mem_keys {α : Type} {k : String}
    {l : List (String × α)} (h : k ∉ keys l) : alookup k l = none := by
  induction l with
  | nil => simp [alookup]
  | cons hd tl ih =>
    rcases hd with ⟨k2, v2⟩
    rw [keys_cons, List.mem_cons] at h
    push_neg at h
    have hne : ¬(k2 = k) := fun he => h.1 he.symm
    simp [alookup, hne, ih h.2]

theorem keys_aerase_sublist {α : Type} (k : String) (l : List (String × α)) :
    List.Sublist (keys (aerase k l)) (keys l) := by
  induction l with
  | nil => simp [aerase]
  | cons hd tl ih =>
    rcases hd with ⟨k2, v2⟩
    by_cases h2 : k2 = k
    · simp only [aerase, h2, if_pos rfl, keys_cons]
      exact List.sublist_cons_self _ _
    · simp only [aerase, if_neg h2, keys_cons]
      exact List.Sublist.cons₂ _ ih

theorem nodup_keys_aerase {α : Type} (k : String) {l : List (String × α)}
    (h : (keys l).Nodup) : (keys (aerase k l)).Nodup :=
  h.sublist (keys_aerase_sublist k l)

theorem alookup_aerase_self {α : Type} {k : String} {l : List (String × α)}
    (h : (keys l).Nodup) : alookup k (aerase k l) = none := by
  induction l with
  | nil => simp [aerase, alookup]
  | cons hd tl ih =>
    rcases hd with ⟨k2, v2⟩
    rw [keys_cons, List.nodup_cons] at h
    by_cases h2 : k2 = k
    · subst h2
      simp only [aerase, if_pos rfl]
      exact alookup_eq_none_of_not_mem_keys h.1
    · simp [aerase, alookup, h2, ih h.2]

theorem mem_keys_aset {α : Type} {k3 k : String} {v : α} {l : List (String × α)} :
    k3 ∈ keys (aset k v l) ↔ k3 = k ∨ k3 ∈ keys l := by
  induction l with
  | nil => simp [aset, keys_cons, keys_nil]
  | cons hd tl ih =>
    rcases hd with ⟨k2, v2⟩
    by_cases h2 : k2 = k
    · subst h2
      simp [aset, keys_cons, List.mem_cons]
    · simp only [aset, if_neg h2, keys_cons, List.mem_cons, ih]
      tauto

theorem nodup_keys_aset {α : Type} (k : String) (v : α) {l : List (String × α)}
    (h : (keys l).Nodup) : (keys (aset k v l)).Nodup := by
  induction l with
  | nil => simp [aset, keys_cons, keys_nil]
  | cons hd tl ih =>
    rcases hd with ⟨k2, v2⟩
    rw [keys_cons, List.nodup_cons] at h
    by_cases h2 : k2 = k
    · subst h2
      have hu : aset k2 v ((k2, v2) :: tl) = (k2, v) :: tl := by simp [aset]
      rw [hu, keys_cons, List.nodup_cons]
      exact h
    · simp only [aset, if_neg h2, keys_cons, List.nodup_cons]
      refine ⟨fun hm => ?_, ih h.2⟩
      rcases mem_keys_aset.1 hm with h3 | h3
      · exact h2 h3
      · exact h.1 h3

theorem mem_of_alookup_eq_some {α : Type} {k : String} {v : α}
    {l : List (String × α)} (h : alookup k l = some v) : (k, v) ∈ l := by
  induction l with
  | nil => simp [alookup] at h
  | cons hd tl ih =>
    rcases hd with ⟨k2, v2⟩
    by_cases h2 : k2 = k
    · subst h2
      simp [alookup] at h
      subst h
      exact List.mem_cons_self _ _
    · simp only [alookup, if_neg h2] at h
      exact List.mem_cons_of_mem _ (ih h)

theorem alookup_eq_some_of_mem {α : Type} {k : String} {v : α}
    {l : List (String × α)} (hnd : (keys l).Nodup) (h : (k, v) ∈ l) :
    alookup k l = some v := by
  induction l with
  | nil => simp at h
  | cons hd tl ih =>
    rcases hd with ⟨k2, v2⟩
    rw [keys_cons, List.nodup_cons] at hnd
    rcases List.mem_cons.1 h with h1 | h1
    · injection h1 with hk hv
      subst hk
      subst hv
      simp [alookup]
    · have hk : ¬(k2 = k) := by
        intro he
        subst he
        exact hnd.1 (mem_keys_of_alookup_eq_some (ih hnd.2 h1))
      simp [alookup, hk, ih hnd.2 h1]

theorem keys_filter_subset {α : Type} (p : String × α → Bool) (l : List (String × α))
    (k : String) (hk : k ∈ keys (l.filter p)) : k ∈ keys l := by
  rw [keys] at hk ⊢
  obtain ⟨e, he, hek⟩ := List.mem_map.1 hk
  exact List.mem_map.2 ⟨e, List.mem_of_mem_filter he, hek⟩

theorem alookup_filter {α : Type} {k : String} {l : List (String × α)}
    (hnd : (keys l).Nodup) (p : String × α → Bool) :
    alookup k (l.filter p) =
      (alookup k l).bind (fun v => if p (k, v) then some v else none) := by
  induction l with
  | nil => simp [alookup]
  | cons hd tl ih =>
    rcases hd with ⟨k2, v2⟩
    rw [keys_cons, List.nodup_cons] at hnd
    by_cases h2 : k2 = k
    · subst h2
      by_cases hp : p (k2, v2)
      · simp [List.filter_cons, hp, alookup]
      · have hnone : alookup k2 (tl.filter p) = none := by
          refine alookup_eq_none_of_not_mem_keys fun hm => ?_
          exact hnd.1 (keys_filter_subset p tl k2 hm)
        simp [List.filter_cons, hp, alookup, hnone]
    · by_cases hp : p (k2, v2) <;>
        simp [List.filter_cons, hp, alookup, h2, ih hnd.2]

/-! ## Lemmas about member sets -/

theorem mem_insertMember {y x : String} {l : List String} :
    y ∈ insertMember x l ↔ y ∈ l ∨ y = x := by
  by_cases h : x ∈ l
  · simp [insertMember, h]
    intro he
    subst he
    exact h
  · simp [insertMember, h]

theorem insertMember_ne_nil {x : String} {l : List String} : insertMember x l ≠ [] := by
  by_cases h : x ∈ l
  · simp [insertMember, h]
    rintro rfl
    simp at h
  · simp [insertMember, h]

theorem nodup_insertMember {x : String} {l : List String} (h : l.Nodup) :
    (insertMember x l).Nodup := by
  by_cases hm : x ∈ l
  · simpa [insertMember, hm] using h
  · simp only [insertMember, if_neg hm]
    refine List.Nodup.append h (List.nodup_singleton x) ?_
    intro a ha hax
    rw [List.mem_singleton] at hax
    subst hax
    exact hm ha

theorem erase_eq_nil_cases {l : List String} {x : String} (h : l.erase x = []) :
    l = [] ∨ l = [x] := by
  cases l with
  | nil => exact Or.inl rfl
  | cons a rest =>
    by_cases ha : a = x
    · subst ha
      simp [List.erase_cons] at h
      simp [h]
    · simp [List.erase_cons, ha] at h

/-! ## Characterization of the handlers' state updates -/

theorem joinRoom_invalid {roomId userId userName userRole : Option String}
    (hv : (isMissing roomId || isMissing userId || isMissing userName) = true)
    (s : ServerState) (sockId : String) (now : Nat) (sfuUp p2pUp : Bool)
    (tok : Option String) :
    joinRoom s roomId userId userName userRole sockId now sfuUp p2pUp tok =
      { state := s, events := [Event.errorEvt sockId "join-room"],
        tokenRequested := false } := by
  simp [joinRoom, hv]

theorem joinRoom_state_valid {roomId userId userName userRole : Option String}
    (hv : (isMissing roomId || isMissing userId || isMissing userName) = false)
    (s : ServerState) (sockId : String) (now : Nat) (sfuUp p2pUp : Bool)
    (tok : Option String) :
    (joinRoom s roomId userId userName userRole sockId now sfuUp p2pUp tok).state =
      { rooms := aset (roomId.getD "")
          (joinRoomRecord s (roomId.getD "") sockId now sfuUp p2pUp) s.rooms
        participants := aset sockId
          (joinParticipantRecord userId userName userRole (roomId.getD "") sockId now)
          s.participants } := by
  simp [joinRoom, hv]

/-! ## Preservation of the registry invariant -/

theorem inv_init : Inv initialState := by
  refine ⟨List.nodup_nil, List.nodup_nil, ?_, ?_, ?_, ?_⟩
  · intro sid p h
    simp [initialState, alookup] at h
  · intro rid room sid h1 h2
    simp [initialState, alookup] at h1
  · intro rid room h
    simp [initialState, alookup] at h
  · intro rid room h
    simp [initialState, alookup] at h

/-- Invariant preservation by the successful-join state update, stated over the
generic shape of that update (the stored mode is irrelevant to the invariant). -/
theorem inv_join_core {s : ServerState} (hI : Inv s) {sockId rid : String}
    (hnew : alookup sockId s.participants = none)
    (p1 : Participant) (hp1 : p1.roomId = rid)
    (room1 : Room) (base : List String)
    (hbase : ∀ r0, alookup rid s.rooms = some r0 → base = r0.participantsSet)
    (hbase2 : alookup rid s.rooms = none → base = [])
    (hm1 : room1.participantsSet = insertMember sockId base) :
    Inv { rooms := aset rid room1 s.rooms,
          participants := aset sockId p1 s.participants } := by
  refine ⟨nodup_keys_aset _ _ hI.roomsNodup, nodup_keys_aset _ _ hI.partsNodup,
          ?_, ?_, ?_, ?_⟩
  · -- partHasRoom
    intro sid p hp
    by_cases hs : sid = sockId
    · subst hs
      rw [alookup_aset_self] at hp
      injection hp with hpe
      subst hpe
      refine ⟨room1, ?_, ?_⟩
      · rw [hp1]
        exact alookup_aset_self _ _ _
      · rw [hm1]
        exact mem_insertMember.2 (Or.inr rfl)
    · rw [alookup_aset_ne (fun he => hs he.symm)] at hp
      obtain ⟨room, hr, hmem⟩ := hI.partHasRoom sid p hp
      by_cases hrr : p.roomId = rid
      · rw [hrr] at hr ⊢
        refine ⟨room1, alookup_aset_self _ _ _, ?_⟩
        rw [hm1]
        refine mem_insertMember.2 (Or.inl ?_)
        rw [hbase room hr]
        exact hmem
      · rw [alookup_aset_ne (fun he => hrr he.symm)]
        exact ⟨room, hr, hmem⟩
  · -- memberHasPart
    intro rid2 room2 sid h1 h2
    by_cases hr2 : rid2 = rid
    · subst hr2
      rw [alookup_aset_self] at h1
      injection h1 with h1e
      subst h1e
      rw [hm1] at h2
      rcases mem_insertMember.1 h2 with h3 | h3
      · cases hr : alookup rid2 s.rooms with
        | none =>
          rw [hbase2 hr] at h3
          simp at h3
        | some r0 =>
          rw [hbase r0 hr] at h3
          obtain ⟨p, hp, hpr⟩ := hI.memberHasPart rid2 r0 sid hr h3
          have hs : sockId ≠ sid := by
            intro he
            rw [← he, hnew] at hp
            cases hp
          refine ⟨p, ?_, hpr⟩
          rw [alookup_aset_ne hs]
          exact hp
      · subst h3
        exact ⟨p1, alookup_aset_self _ _ _, hp1⟩
    · have hne : rid ≠ rid2 := fun he => hr2 he.symm
      rw [alookup_aset_ne hne] at h1
      obtain ⟨p, hp, hpr⟩ := hI.memberHasPart rid2 room2 sid h1 h2
      have hs : sockId ≠ sid := by
        intro he
        rw [← he, hnew] at hp
        cases hp
      refine ⟨p, ?_, hpr⟩
      rw [alookup_aset_ne hs]
      exact hp
  · -- membersNodup
    intro rid2 room2 h1
    by_cases hr2 : rid2 = rid
    · subst hr2
      rw [alookup_aset_self] at h1
      injection h1 with h1e
      subst h1e
      rw [hm1]
      refine nodup_insertMember ?_
      cases hr : alookup rid2 s.rooms with
      | none =>
        rw [hbase2 hr]
        exact List.nodup_nil
      | some r0 =>
        rw [hbase r0 hr]
        exact hI.membersNodup rid2 r0 hr
    · rw [alookup_aset_ne (fun he => hr2 he.symm)] at h1
      exact hI.membersNodup rid2 room2 h1
  · -- roomNonempty
    intro rid2 room2 h1
    by_cases hr2 : rid2 = rid
    · subst hr2
      rw [alookup_aset_self] at h1
      injection h1 with h1e
      subst h1e
      rw [hm1]
      exact insertMember_ne_nil
    · rw [alookup_aset_ne (fun he => hr2 he.symm)] at h1
      exact hI.roomNonempty rid2 room2 h1

theorem inv_joinRoom {s : ServerState} (hI : Inv s) {sockId : String}
    (hnew : alookup sockId s.participants = none)
    (roomId userId userName userRole : Option String) (now : Nat) (sfuUp p2pUp : Bool)
    (tok : Option String) :
    Inv (joinRoom s roomId userId userName userRole sockId now sfuUp p2pUp tok).state := by
  cases hv : (isMissing roomId || isMissing userId || isMissing userName) with
  | true =>
    rw [joinRoom_invalid hv]
    exact hI
  | false =>
    rw [joinRoom_state_valid hv]
    refine inv_join_core hI hnew
      (joinParticipantRecord userId userName userRole (roomId.getD "") sockId now) rfl
      (joinRoomRecord s (roomId.getD "") sockId now sfuUp p2pUp)
      ((alookup (roomId.getD "") s.rooms).getD
        { roomId := roomId.getD "", participantsSet := [], mode := Mode.p2p,
          createdAt := now }).participantsSet ?_ ?_ ?_
    · intro r0 hr
      simp only [joinParticipantRecord] at hr
      rw [hr, Option.getD_some]
    · intro hr
      simp only [joinParticipantRecord] at hr
      rw [hr, Option.getD_none]
    · rfl

theorem inv_leave {s : ServerState} (hI : Inv s) (sockId : String) :
    Inv (handleParticipantLeaving s sockId).1 := by
  cases hp : alookup sockId s.participants with
  | none =>
    simp only [handleParticipantLeaving, hp]
    exact hI
  | some participant =>
    obtain ⟨room, hr, hmem⟩ := hI.partHasRoom sockId participant hp
    simp only [handleParticipantLeaving, hp, hr]
    by_cases hemp : (room.participantsSet.erase sockId).length = 0
    · -- the room empties out and is deleted synchronously
      have hnil : room.participantsSet.erase sockId = [] := List.length_eq_zero.1 hemp
      have hsingle : room.participantsSet = [sockId] := by
        rcases erase_eq_nil_cases hnil with h | h
        · exact absurd h (hI.roomNonempty participant.roomId room hr)
        · exact h
      rw [if_pos hemp]
      refine ⟨nodup_keys_aerase _ hI.roomsNodup, nodup_keys_aerase _ hI.partsNodup,
              ?_, ?_, ?_, ?_⟩
      · intro sid p hp2
        have hs : sid ≠ sockId := by
          intro he
          subst he
          rw [alookup_aerase_self hI.partsNodup] at hp2
          cases hp2
        rw [alookup_aerase_ne (fun he => hs he.symm)] at hp2
        obtain ⟨room2, hr2, hmem2⟩ := hI.partHasRoom sid p hp2
        have hne : p.roomId ≠ participant.roomId := by
          intro he
          rw [he, hr] at hr2
          injection hr2 with h2e
          subst h2e
          rw [hsingle] at hmem2
          exact hs (List.mem_singleton.1 hmem2)
        rw [alookup_aerase_ne (fun he => hne he.symm)]
        exact ⟨room2, hr2, hmem2⟩
      · intro rid2 room2 sid h1 h2
        have hne : rid2 ≠ participant.roomId := by
          intro he
          subst he
          rw [alookup_aerase_self hI.roomsNodup] at h1
          cases h1
        rw [alookup_aerase_ne (fun he => hne he.symm)] at h1
        obtain ⟨p, hp2, hpr⟩ := hI.memberHasPart rid2 room2 sid h1 h2
        have hs : sid ≠ sockId := by
          intro he
          subst he
          rw [hp] at hp2
          injection hp2 with h2e
          subst h2e
          exact hne hpr.symm
        refine ⟨p, ?_, hpr⟩
        rw [alookup_aerase_ne (fun he => hs he.symm)]
        exact hp2
      · intro rid2 room2 h1
        have hne : rid2 ≠ participant.roomId := by
          intro he
          subst he
          rw [alookup_aerase_self hI.roomsNodup] at h1
          cases h1
        rw [alookup_aerase_ne (fun he => hne he.symm)] at h1
        exact hI.membersNodup rid2 room2 h1
      · intro rid2 room2 h1
        have hne : rid2 ≠ participant.roomId := by
          intro he
          subst he
          rw [alookup_aerase_self hI.roomsNodup] at h1
          cases h1
        rw [alookup_aerase_ne (fun he => hne he.symm)] at h1
        exact hI.roomNonempty rid2 room2 h1
    · -- members remain: the room record is updated in place
      rw [if_neg hemp]
      have hnodup := hI.membersNodup participant.roomId room hr
      refine ⟨nodup_keys_aset _ _ hI.roomsNodup, nodup_keys_aerase _ hI.partsNodup,
              ?_, ?_, ?_, ?_⟩
      · intro sid p hp2
        have hs : sid ≠ sockId := by
          intro he
          subst he
          rw [alookup_aerase_self hI.partsNodup] at hp2
          cases hp2
        rw [alookup_aerase_ne (fun he => hs he.symm)] at hp2
        obtain ⟨room2, hr2, hmem2⟩ := hI.partHasRoom sid p hp2
        by_cases hrr : p.roomId = participant.roomId
        · rw [hrr] at hr2 ⊢
          rw [hr] at hr2
          injection hr2 with h2e
          subst h2e
          refine ⟨_, alookup_aset_self _ _ _, ?_⟩
          exact hnodup.mem_erase_iff.2 ⟨hs, hmem2⟩
        · rw [alookup_aset_ne (fun he => hrr he.symm)]
          exact ⟨room2, hr2, hmem2⟩
      · intro rid2 room2 sid h1 h2
        by_cases hr2 : rid2 = participant.roomId
        · subst hr2
          rw [alookup_aset_self] at h1
          injection h1 with h1e
          subst h1e
          simp only at h2
          have h3 := hnodup.mem_erase_iff.1 h2
          obtain ⟨p, hp2, hpr⟩ := hI.memberHasPart _ room sid hr h3.2
          refine ⟨p, ?_, hpr⟩
          rw [alookup_aerase_ne (fun he => h3.1 he.symm)]
          exact hp2
        · rw [alookup_aset_ne (fun he => hr2 he.symm)] at h1
          obtain ⟨p, hp2, hpr⟩ := hI.memberHasPart rid2 room2 sid h1 h2
          have hs : sid ≠ sockId := by
            intro he
            subst he
            rw [hp] at hp2
            injection hp2 with h2e
            subst h2e
            exact hr2 hpr.symm
          refine ⟨p, ?_, hpr⟩
          rw [alookup_aerase_ne (fun he => hs he.symm)]
          exact hp2
      · intro rid2 room2 h1
        by_cases hr2 : rid2 = participant.roomId
        · subst hr2
          rw [alookup_aset_self] at h1
          injection h1 with h1e
          subst h1e
          exact hnodup.erase sockId
        · rw [alookup_aset_ne (fun he => hr2 he.symm)] at h1
          exact hI.membersNodup rid2 room2 h1
      · intro rid2 room2 h1
        by_cases hr2 : rid2 = participant.roomId
        · subst hr2
          rw [alookup_aset_self] at h1
          injection h1 with h1e
          subst h1e
          simp only
          intro hcon
          exact hemp (by rw [hcon]; rfl)
        · rw [alookup_aset_ne (fun he => hr2 he.symm)] at h1
          exact hI.roomNonempty rid2 room2 h1

theorem inv_media {s : ServerState} (hI : Inv s) (sockId : String) (data : MediaState) :
    Inv (mediaStateChange s sockId data).1 := by
  cases hp : alookup sockId s.participants with
  | none =>
    simp only [mediaStateChange, hp]
    exact hI
  | some p =>
    simp only [mediaStateChange, hp]
    refine ⟨hI.roomsNodup, nodup_keys_aset _ _ hI.partsNodup, ?_, ?_,
            hI.membersNodup, hI.roomNonempty⟩
    · intro sid q hq
      by_cases hs : sid = sockId
      · subst hs
        rw [alookup_aset_self] at hq
        injection hq with hqe
        subst hqe
        obtain ⟨room, hr, hmem⟩ := hI.partHasRoom sid p hp
        exact ⟨room, hr, hmem⟩
      · rw [alookup_aset_ne (fun he => hs he.symm)] at hq
        exact hI.partHasRoom sid q hq
    · intro rid room sid h1 h2
      obtain ⟨q, hq, hqr⟩ := hI.memberHasPart rid room sid h1 h2
      by_cases hs : sid = sockId
      · subst hs
        rw [hp] at hq
        injection hq with hqe
        subst hqe
        exact ⟨{ p with mediaState := data }, alookup_aset_self _ _ _, hqr⟩
      · refine ⟨q, ?_, hqr⟩
        rw [alookup_aset_ne (fun he => hs he.symm)]
        exact hq

/-- Under the invariant the reaper finds nothing to delete: every registered
room is non-empty (so pass 1 keeps it) and every participant's room is present
(so pass 2 keeps it). -/
theorem reaperSweep_eq_self {s : ServerState} (hI : Inv s) (now : Nat) :
    reaperSweep s now = s := by
  have hrooms : roomsAfterReap s now = s.rooms := by
    unfold roomsAfterReap
    rw [List.filter_eq_self]
    rintro ⟨rid, room⟩ he
    have hl := alookup_eq_some_of_mem hI.roomsNodup he
    have hne : room.participantsSet.length ≠ 0 :=
      fun h0 => hI.roomNonempty rid room hl (List.length_eq_zero.1 h0)
    simp [hne]
  have hparts :
      s.participants.filter (fun e => (alookup e.2.roomId (roomsAfterReap s now)).isSome) =
        s.participants := by
    rw [List.filter_eq_self]
    rintro ⟨sid, p⟩ he
    have hl := alookup_eq_some_of_mem hI.partsNodup he
    obtain ⟨room, hr, _⟩ := hI.partHasRoom sid p hl
    rw [hrooms]
    simp [hr]
  unfold reaperSweep
  rw [hparts, hrooms]

theorem inv_reap {s : ServerState} (hI : Inv s) (now : Nat) :
    Inv (reaperSweep s now) := by
  rw [reaperSweep_eq_self hI now]
  exact hI

/-- Every reachable registry state satisfies the consistency invariant. -/
theorem inv_of_reachable {s : ServerState} (h : Reachable s) : Inv s := by
  induction h with
  | init => exact inv_init
  | joinStep s roomId userId userName userRole sockId now sfuUp p2pUp tok hR hnew ih =>
    exact inv_joinRoom ih hnew roomId userId userName userRole now sfuUp p2pUp tok
  | leaveStep s sockId hR ih => exact inv_leave ih sockId
  | mediaStep s sockId data hR ih => exact inv_media ih sockId data
  | reapStep s now hR ih => exact inv_reap ih now

/-- C1: the mode decision function is deterministic and pure, and satisfies
the spec's pinned values: `decide(p2p, 9, true, true) = p2p`,
`decide(p2p, 10, true, true) = sfu`, `decide(sfu, 9, true, true) = p2p`,
`decide(m, n, false, _) = p2p`, and `decide(m, n, true, false) = sfu`. -/
theorem decideMode_pure_and_thresholds :
    (∀ m n sfuUp meshUp, decideMode m n sfuUp meshUp = decideMode m n sfuUp meshUp) ∧
    decideMode Mode.p2p 9 true true = Mode.p2p ∧
    decideMode Mode.p2p 10 true true = Mode.sfu ∧
    decideMode Mode.sfu 9 true true = Mode.p2p ∧
    (∀ m n meshUp, decideMode m n false meshUp = Mode.p2p) ∧
    (∀ m n, decideMode m n true false = Mode.sfu) := by
  refine ⟨fun _ _ _ _ => rfl, rfl, rfl, rfl, fun m n meshUp => ?_, fun m n => rfl⟩
  cases meshUp <;> rfl

/-- C9: the mode decision is hysteresis-free: the output is independent of the
room's current mode (the source function never reads it). -/
theorem decideMode_ignores_current_mode :
    ∀ m1 m2 n sfuUp meshUp, decideMode m1 n sfuUp meshUp = decideMode m2 n sfuUp meshUp :=
  fun _ _ _ _ _ => rfl

theorem joinRoom_tokenRequested_valid {roomId userId userName userRole : Option String}
    (hv : (isMissing roomId || isMissing userId || isMissing userName) = false)
    (s : ServerState) (sockId : String) (now : Nat) (sfuUp p2pUp : Bool)
    (tok : Option String) :
    ((joinRoom s roomId userId userName userRole sockId now sfuUp p2pUp tok).tokenRequested
        = true ↔
      (joinRoomRecord s (roomId.getD "") sockId now sfuUp p2pUp).mode = Mode.sfu) := by
  simp [joinRoom, hv]

/-- Reachability certificate for the one-join demonstration state. -/
theorem demoReachable1 : Reachable demoState1 :=
  Reachable.joinStep initialState (some "r") (some "u1") (some "Alice") none "sock1" 0
    true true none Reachable.init rfl

/-- C5: a `join-room` event with a missing or empty `roomId`, `userId` or
`userName` yields exactly one validation-error event to the sender, leaves the
registry untouched, and requests no token. -/
theorem join_validation_error_no_state_change
    (s : ServerState) (roomId userId userName userRole : Option String)
    (sockId : String) (now : Nat) (sfuUp p2pUp : Bool) (tok : Option String)
    (hv : (isMissing roomId || isMissing userId || isMissing userName) = true) :
    (joinRoom s roomId userId userName userRole sockId now sfuUp p2pUp tok).state = s ∧
    (joinRoom s roomId userId userName userRole sockId now sfuUp p2pUp tok).events =
      [Event.errorEvt sockId "join-room"] ∧
    (joinRoom s roomId userId userName userRole sockId now sfuUp p2pUp tok).tokenRequested
      = false := by
  rw [joinRoom_invalid hv]
  exact ⟨rfl, rfl, rfl⟩

/-- C5 witness: an empty `roomId` is rejected with no state change. -/
theorem join_validation_error_no_state_change_witness :
    (isMissing (some "") || isMissing (some "u1") || isMissing (some "Alice")) = true ∧
    ((joinRoom initialState (some "") (some "u1") (some "Alice") none "sock1" 0 true true
        none).state = initialState ∧
     (joinRoom initialState (some "") (some "u1") (some "Alice") none "sock1" 0 true true
        none).events = [Event.errorEvt "sock1" "join-room"] ∧
     (joinRoom initialState (some "") (some "u1") (some "Alice") none "sock1" 0 true true
        none).tokenRequested = false) :=
  ⟨rfl, join_validation_error_no_state_change initialState (some "") (some "u1")
    (some "Alice") none "sock1" 0 true true none rfl⟩

/-- C10: every successful join stores the participant with media state
`{audio: true, video: true}`; no join input can change that. -/
theorem join_initial_media_state
    (s : ServerState) (roomId userId userName userRole : Option String)
    (sockId : String) (now : Nat) (sfuUp p2pUp : Bool) (tok : Option String)
    (hv : (isMissing roomId || isMissing userId || isMissing userName) = false) :
    ∃ p, alookup sockId
        (joinRoom s roomId userId userName userRole sockId now sfuUp p2pUp
          tok).state.participants = some p ∧
      p.mediaState = { audio := true, video := true } := by
  refine ⟨joinParticipantRecord userId userName userRole (roomId.getD "") sockId now,
    ?_, rfl⟩
  rw [joinRoom_state_valid hv]
  exact alookup_aset_self _ _ _

/-- C10 witness: the single joined participant of the demonstration state has
both media flags enabled. -/
theorem join_initial_media_state_witness :
    (isMissing (some "r") || isMissing (some "u1") || isMissing (some "Alice")) = false ∧
    ∃ p, alookup "sock1" demoState1.participants = some p ∧
      p.mediaState = { audio := true, video := true } :=
  ⟨rfl, join_initial_media_state initialState (some "r") (some "u1") (some "Alice") none
    "sock1" 0 true true none rfl⟩

/-- C6: teardown for a connection with no participant record is a total no-op
(no mutation, no events); after any teardown the connection has no record, so a
duplicate leave or disconnect is again a no-op and emits nothing. -/
theorem leave_unknown_connection_noop (s : ServerState) (sockId : String) :
    (alookup sockId s.participants = none →
      handleParticipantLeaving s sockId = (s, [])) ∧
    (Reachable s →
      alookup sockId ((handleParticipantLeaving s sockId).1).participants = none) ∧
    (Reachable s →
      handleParticipantLeaving ((handleParticipantLeaving s sockId).1) sockId =
        ((handleParticipantLeaving s sockId).1, [])) := by
  have hgen : ∀ t : ServerState, alookup sockId t.participants = none →
      handleParticipantLeaving t sockId = (t, []) := by
    intro t h
    simp only [handleParticipantLeaving, h]
  have hnoop : alookup sockId s.participants = none →
      handleParticipantLeaving s sockId = (s, []) := hgen s
  have hafter : Reachable s →
      alookup sockId ((handleParticipantLeaving s sockId).1).participants = none := by
    intro hR
    have hI := inv_of_reachable hR
    cases hp : alookup sockId s.participants with
    | none =>
      rw [hnoop hp]
      exact hp
    | some participant =>
      obtain ⟨room, hr, hmem⟩ := hI.partHasRoom sockId participant hp
      simp only [handleParticipantLeaving, hp, hr]
      exact alookup_aerase_self hI.partsNodup
  exact ⟨hnoop, hafter, fun hR => hgen _ (hafter hR)⟩

/-- C6 witness: an unknown socket id is ignored, and after the demo join the
joined socket's teardown leaves no record behind. -/
theorem leave_unknown_connection_noop_witness :
    handleParticipantLeaving demoState1 "ghost" = (demoState1, []) ∧
    alookup "sock1" ((handleParticipantLeaving demoState1 "sock1").1).participants = none :=
  ⟨(leave_unknown_connection_noop demoState1 "ghost").1 rfl,
   (leave_unknown_connection_noop demoState1 "sock1").2.1 demoReachable1⟩

/-- C3: in every reachable registry state, a participant record exists for a
connection id iff that id is a member of exactly one registered room's member
set. -/
theorem participant_iff_unique_room_member {s : ServerState} (hR : Reachable s)
    (sockId : String) :
    (∃ p, alookup sockId s.participants = some p) ↔
    (∃ rid room, alookup rid s.rooms = some room ∧ sockId ∈ room.participantsSet ∧
      ∀ rid2 room2, alookup rid2 s.rooms = some room2 →
        sockId ∈ room2.participantsSet → rid2 = rid) := by
  have hI := inv_of_reachable hR
  constructor
  · rintro ⟨p, hp⟩
    obtain ⟨room, hr, hmem⟩ := hI.partHasRoom sockId p hp
    refine ⟨p.roomId, room, hr, hmem, ?_⟩
    intro rid2 room2 h1 h2
    obtain ⟨q, hq, hqr⟩ := hI.memberHasPart rid2 room2 sockId h1 h2
    rw [hp] at hq
    injection hq with hqe
    subst hqe
    exact hqr.symm
  · rintro ⟨rid, room, h1, h2, _⟩
    obtain ⟨p, hp, _⟩ := hI.memberHasPart rid room sockId h1 h2
    exact ⟨p, hp⟩

/-- C3 witness: the correspondence evaluated at the one-join demonstration
state and its joined socket. -/
theorem participant_iff_unique_room_member_witness :
    (∃ p, alookup "sock1" demoState1.participants = some p) ↔
    (∃ rid room, alookup rid demoState1.rooms = some room ∧
      "sock1" ∈ room.participantsSet ∧
      ∀ rid2 room2, alookup rid2 demoState1.rooms = some room2 →
        "sock1" ∈ room2.participantsSet → rid2 = rid) :=
  participant_iff_unique_room_member demoReachable1 "sock1"

/-- C4: in every reachable registry state a registered room has a non-empty
member set (rooms never dangle empty between operations), and a leave that
removes the last member deletes the room record within that same operation. -/
theorem room_nonempty_and_sync_delete (s : ServerState) :
    (Reachable s → ∀ rid room, alookup rid s.rooms = some room →
      room.participantsSet ≠ []) ∧
    (Reachable s → ∀ sockId p room, alookup sockId s.participants = some p →
      alookup p.roomId s.rooms = some room →
      room.participantsSet.erase sockId = [] →
      alookup p.roomId (handleParticipantLeaving s sockId).1.rooms = none) := by
  refine ⟨fun hR rid room h => (inv_of_reachable hR).roomNonempty rid room h, ?_⟩
  intro hR sockId p room hp hr hnil
  have hI := inv_of_reachable hR
  simp only [handleParticipantLeaving, hp, hr]
  have hlen : (room.participantsSet.erase sockId).length = 0 := by
    rw [hnil]
    rfl
  rw [if_pos hlen]
  exact alookup_aerase_self hI.roomsNodup

/-- C4 witness: the demonstration room is non-empty, and the sole member's
leave deletes the room synchronously. -/
theorem room_nonempty_and_sync_delete_witness :
    ({ roomId := "r", participantsSet := ["sock1"], mode := Mode.p2p,
       createdAt := 0 } : Room).participantsSet ≠ [] ∧
    alookup "r" (handleParticipantLeaving demoState1 "sock1").1.rooms = none :=
  ⟨(room_nonempty_and_sync_delete demoState1).1 demoReachable1 "r"
      { roomId := "r", participantsSet := ["sock1"], mode := Mode.p2p, createdAt := 0 } rfl,
   (room_nonempty_and_sync_delete demoState1).2 demoReachable1 "sock1"
      (joinParticipantRecord (some "u1") (some "Alice") none "r" "sock1" 0)
      { roomId := "r", participantsSet := ["sock1"], mode := Mode.p2p, createdAt := 0 }
      rfl rfl rfl⟩

/-- C8: on every reachable registry state the reaper sweep keeps every
non-empty room and every participant whose room survives; a room it deletes
was empty and past the 30-minute threshold, and a participant it deletes had
no surviving room. -/
theorem reaper_deletes_only_empty_aged_or_orphans {s : ServerState}
    (hR : Reachable s) (now : Nat) :
    (∀ rid room, alookup rid s.rooms = some room → room.participantsSet ≠ [] →
      alookup rid (reaperSweep s now).rooms = some room) ∧
    (∀ rid room, alookup rid s.rooms = some room →
      alookup rid (reaperSweep s now).rooms = none →
      room.participantsSet = [] ∧ now - room.createdAt > MAX_INACTIVE_TIME) ∧
    (∀ sid p, alookup sid s.participants = some p →
      (alookup p.roomId (reaperSweep s now).rooms).isSome = true →
      alookup sid (reaperSweep s now).participants = some p) ∧
    (∀ sid p, alookup sid s.participants = some p →
      alookup sid (reaperSweep s now).participants = none →
      alookup p.roomId (reaperSweep s now).rooms = none) := by
  have hI := inv_of_reachable hR
  rw [reaperSweep_eq_self hI now]
  refine ⟨fun rid room h _ => h, ?_, fun sid p h _ => h, ?_⟩
  · intro rid room h hnone
    rw [h] at hnone
    cases hnone
  · intro sid p h hnone
    rw [h] at hnone
    cases hnone

/-- C8 witness: after the demonstration join, a sweep at time 0 keeps the
non-empty room untouched. -/
theorem reaper_deletes_only_empty_aged_or_orphans_witness :
    alookup "r" (reaperSweep demoState1 0).rooms =
      some { roomId := "r", participantsSet := ["sock1"], mode := Mode.p2p,
             createdAt := 0 } :=
  (reaper_deletes_only_empty_aged_or_orphans demoReachable1 0).1 "r"
    { roomId := "r", participantsSet := ["sock1"], mode := Mode.p2p, createdAt := 0 }
    rfl (by decide)

/-- Reachability certificate for the first mesh-down join. -/
theorem meshDownReachable1 : Reachable meshDown1 :=
  Reachable.joinStep initialState (some "r") (some "u1") (some "Alice") none "sock1" 0
    true false none Reachable.init rfl

/-- Reachability certificate for the two-member mesh-down room. -/
theorem meshDownReachable2 : Reachable meshDown2 :=
  Reachable.joinStep meshDown1 (some "r") (some "u2") (some "Bob") none "sock2" 0
    true false none meshDownReachable1 rfl

/-- C2 counterexample: in a reachable state (mesh service down, SFU up, a
two-member room in sfu mode), the leave of one member leaves the room
non-empty but stores mode `p2p`, while the decision function at the prevailing
availability (sfuUp = true, meshUp = false) and the new count returns `sfu` —
the teardown handler does not re-run the decision function. -/
theorem leave_not_rearbitrated_counterexample :
    Reachable meshDown2 ∧
    (alookup "sock1" meshDown2.participants).isSome = true ∧
    alookup "r" meshDown3.rooms =
      some { roomId := "r", participantsSet := ["sock2"], mode := Mode.p2p,
             createdAt := 0 } ∧
    decideMode Mode.sfu 1 true false = Mode.sfu ∧
    Mode.p2p ≠ Mode.sfu := by
  refine ⟨meshDownReachable2, rfl, rfl, rfl, ?_⟩
  decide

/-- C2 (amended): after a valid join the stored mode is exactly
`determineOptimalMode`'s output at the post-insertion member count; after a
leave that keeps the room non-empty, the stored mode is the fixed downward rule
`leaveModeRule` applied to the previous mode and the post-removal count — the
decision function (and the health probes) are not consulted on leave. -/
theorem mode_update_join_and_leave (s : ServerState) :
    (∀ roomId userId userName userRole : Option String, ∀ sockId : String,
      ∀ now : Nat, ∀ sfuUp p2pUp : Bool, ∀ tok : Option String,
      (isMissing roomId || isMissing userId || isMissing userName) = false →
      alookup (roomId.getD "")
          (joinRoom s roomId userId userName userRole sockId now sfuUp p2pUp
            tok).state.rooms =
        some (joinRoomRecord s (roomId.getD "") sockId now sfuUp p2pUp) ∧
      (joinRoomRecord s (roomId.getD "") sockId now sfuUp p2pUp).mode =
        determineOptimalMode sfuUp p2pUp
          (joinRoomRecord s (roomId.getD "") sockId now sfuUp
            p2pUp).participantsSet.length) ∧
    (∀ sockId p room, alookup sockId s.participants = some p →
      alookup p.roomId s.rooms = some room →
      room.participantsSet.erase sockId ≠ [] →
      alookup p.roomId (handleParticipantLeaving s sockId).1.rooms =
        some { room with
          participantsSet := room.participantsSet.erase sockId,
          mode := leaveModeRule room.mode
            (room.participantsSet.erase sockId).length }) := by
  constructor
  · intro roomId userId userName userRole sockId now sfuUp p2pUp tok hv
    constructor
    · rw [joinRoom_state_valid hv]
      exact alookup_aset_self _ _ _
    · rfl
  · intro sockId p room hp hr hne
    simp only [handleParticipantLeaving, hp, hr]
    have hlen : ¬((room.participantsSet.erase sockId).length = 0) := by
      intro h0
      exact hne (List.length_eq_zero.1 h0)
    rw [if_neg hlen]
    exact alookup_aset_self _ _ _

/-- C2 (amended) witness: the mesh-down scenario evaluated concretely — join
stores the arbitrated record, and the leave applies the fixed downward rule. -/
theorem mode_update_join_and_leave_witness :
    alookup "r" meshDown1.rooms =
      some (joinRoomRecord initialState "r" "sock1" 0 true false) ∧
    alookup "r" meshDown3.rooms =
      some { roomId := "r", participantsSet := ["sock2"], mode := Mode.p2p,
             createdAt := 0 } :=
  ⟨((mode_update_join_and_leave initialState).1 (some "r") (some "u1") (some "Alice")
      none "sock1" 0 true false none rfl).1,
   (mode_update_join_and_leave meshDown2).2 "sock1"
     (joinParticipantRecord (some "u1") (some "Alice") none "r" "sock1" 0)
     { roomId := "r", participantsSet := ["sock1", "sock2"], mode := Mode.sfu,
       createdAt := 0 }
     rfl rfl (by decide)⟩

/-- C7: in a valid join a token is requested iff the stored (resolved) mode is
`sfu`; and a failed token fetch changes nothing else — the registry update is
identical to the successful case, the joiner's confirmation carries a null
token, and no error event is emitted. -/
theorem join_token_iff_sfu_and_failure_nonfatal
    (s : ServerState) (roomId userId userName userRole : Option String)
    (sockId : String) (now : Nat) (sfuUp p2pUp : Bool) (tok : Option String)
    (hv : (isMissing roomId || isMissing userId || isMissing userName) = false) :
    ((joinRoom s roomId userId userName userRole sockId now sfuUp p2pUp
        tok).tokenRequested = true ↔
      ∃ room, alookup (roomId.getD "")
          (joinRoom s roomId userId userName userRole sockId now sfuUp p2pUp
            tok).state.rooms = some room ∧ room.mode = Mode.sfu) ∧
    (joinRoom s roomId userId userName userRole sockId now sfuUp p2pUp none).state =
      (joinRoom s roomId userId userName userRole sockId now sfuUp p2pUp tok).state ∧
    (∃ ex cnt md rest,
      (joinRoom s roomId userId userName userRole sockId now sfuUp p2pUp
        none).events = Event.roomJoined sockId (roomId.getD "") ex md none cnt :: rest) ∧
    (∀ tgt ev, Event.errorEvt tgt ev ∉
      (joinRoom s roomId userId userName userRole sockId now sfuUp p2pUp none).events) := by
  refine ⟨?_, ?_, ?_, ?_⟩
  · rw [joinRoom_tokenRequested_valid hv, joinRoom_state_valid hv]
    constructor
    · intro hmd
      exact ⟨_, alookup_aset_self _ _ _, hmd⟩
    · rintro ⟨room, hline, hmd⟩
      rw [alookup_aset_self] at hline
      injection hline with he
      rw [he]
      exact hmd
  · rw [joinRoom_state_valid hv, joinRoom_state_valid hv]
  · simp [joinRoom, hv]
  · intro tgt ev h
    simp [joinRoom, hv] at h

/-- C7 witness: a join that resolves to sfu mode (mesh down) with a failed
token fetch still completes, with a null token and no error event. -/
theorem join_token_iff_sfu_and_failure_nonfatal_witness :
    ((joinRoom initialState (some "r") (some "u1") (some "Alice") none "sock1" 0 true
        false (some "tk")).tokenRequested = true ↔
      ∃ room, alookup "r"
          (joinRoom initialState (some "r") (some "u1") (some "Alice") none "sock1" 0
            true false (some "tk")).state.rooms = some room ∧ room.mode = Mode.sfu) ∧
    (joinRoom initialState (some "r") (some "u1") (some "Alice") none "sock1" 0 true
        false none).state =
      (joinRoom initialState (some "r") (some "u1") (some "Alice") none "sock1" 0 true
        false (some "tk")).state ∧
    (∃ ex cnt md rest,
      (joinRoom initialState (some "r") (some "u1") (some "Alice") none "sock1" 0 true
        false none).events = Event.roomJoined "sock1" "r" ex md none cnt :: rest) ∧
    (∀ tgt ev, Event.errorEvt tgt ev ∉
      (joinRoom initialState (some "r") (some "u1") (some "Alice") none "sock1" 0 true
        false none).events) :=
  join_token_iff_sfu_and_failure_nonfatal initialState (some "r") (some "u1")
    (some "Alice") none "sock1" 0 true false (some "tk") rfl

end VisioCampus
